import Mathlib

/-!
Verification of the Five-in-a-Row game server.

The definitions below are a shallow embedding of the JavaScript source:
the `Game` class (board, move validation, win detection), the `AIPlayer`
class (heuristic move selection), and the socket event handlers operating
on the shared server state (games map, wait queue, player mappings).

Conventions of the embedding:
* the 19x19 board is a total function `Int → Int → Option Player`; the
  source guards every array access with an explicit bounds check, which is
  mirrored by `onBoard`, so cells outside the grid are never consulted;
* JS `Date` timestamps and socket.io timer handles are not modelled: no
  verified property mentions them;
* socket objects are identified by their numeric id; the source compares
  socket object identity, which coincides with id equality for live sockets;
* `Math.random()` in the AI fallback is abstracted as a function parameter.
-/

/-- Stone colours, the JS strings "black" and "white". -/
inductive Player
  | black
  | white
deriving DecidableEq, Repr

/-- The JS string stored in `game.winner` for a player. -/
def Player.str : Player → String
  | .black => "black"
  | .white => "white"

/-- The opposite colour. -/
def Player.other : Player → Player
  | .black => .white
  | .white => .black

/-- A board: cell contents of every (row, col) pair.  The source stores a
19x19 array of `null | "black" | "white"`; all accesses are bounds-guarded. -/
abbrev Board := Int → Int → Option Player

/-- Game.initializeBoard: the all-empty board. -/
def initializeBoard : Board := fun _ _ => none

/-- Placing a value at one cell of a board (the assignment
`this.board[row][col] = player`). -/
def boardSet (b : Board) (row col : Int) (v : Option Player) : Board :=
  fun r c => if r = row ∧ c = col then v else b r c

/-- The bounds guard `r >= 0 && r < 19 && c >= 0 && c < 19`. -/
def onBoard (r c : Int) : Bool :=
  decide (0 ≤ r ∧ r < 19 ∧ 0 ≤ c ∧ c < 19)

/-- The guarded cell test used in every scanning loop of the source:
in bounds and holding the given colour. -/
def cellHas (b : Board) (r c : Int) (p : Player) : Bool :=
  onBoard r c && decide (b r c = some p)

/-- One scanning loop of `checkWin` / `checkWinAtPosition`: starting from
(r, c), step by (dr, dc) up to `fuel` times, counting consecutive cells that
are in bounds and hold `p`, stopping at the first failure (the `break`). -/
def runLen (b : Board) (p : Player) (dr dc : Int) : Nat → Int → Int → Nat
  | 0, _, _ => 0
  | fuel + 1, r, c =>
    if cellHas b (r + dr) (c + dc) p then
      runLen b p dr dc fuel (r + dr) (c + dc) + 1
    else 0

/-- The same scan collecting the visited cells in order (the `push` calls of
`checkWin`). -/
def runCells (b : Board) (p : Player) (dr dc : Int) :
    Nat → Int → Int → List (Int × Int)
  | 0, _, _ => []
  | fuel + 1, r, c =>
    if cellHas b (r + dr) (c + dc) p then
      (r + dr, c + dc) :: runCells b p dr dc fuel (r + dr) (c + dc)
    else []

/-- The value of `count` in `checkWin` for one direction: the placed cell
plus up to 4 cells forward and up to 4 cells backward. -/
def lineCount (b : Board) (p : Player) (r c dr dc : Int) : Nat :=
  1 + runLen b p dr dc 4 r c + runLen b p (-dr) (-dc) 4 r c

/-- The value of `winningStones` in `checkWin` for one direction: backward
cells were added with `unshift` (hence reversed), then the placed cell, then
the forward cells in `push` order. -/
def lineStones (b : Board) (p : Player) (r c dr dc : Int) : List (Int × Int) :=
  (runCells b p (-dr) (-dc) 4 r c).reverse ++ (r, c) :: runCells b p dr dc 4 r c

/-- The four scanned axes, in source order: horizontal, vertical, the two
diagonals. -/
def directions : List (Int × Int) := [(0, 1), (1, 0), (1, 1), (1, -1)]

/-- Result object of `Game.checkWin`. -/
structure WinResult where
  won : Bool
  winningStones : List (Int × Int)
deriving DecidableEq, Repr

/-- The direction loop of `Game.checkWin`: the first direction whose count
reaches 5 wins and its stones are returned. -/
def checkWinGo (b : Board) (r c : Int) (p : Player) :
    List (Int × Int) → WinResult
  | [] => ⟨false, []⟩
  | (dr, dc) :: rest =>
    if 5 ≤ lineCount b p r c dr dc then ⟨true, lineStones b p r c dr dc⟩
    else checkWinGo b r c p rest

/-- Game.checkWin(row, col, player). -/
def checkWin (b : Board) (r c : Int) (p : Player) : WinResult :=
  checkWinGo b r c p directions

/-- Modelled from the spec for the refinement comparison of C1: a
brute-force scan over the four axes of every length-5 window containing
(r, c), succeeding when some window consists of 5 in-bounds cells all
holding `p`.  Window `k` covers offsets `i - k` for `i = 0..4`. -/
def bruteForceWinB (b : Board) (p : Player) (r c : Int) : Bool :=
  directions.any fun d =>
    (List.range 5).any fun k =>
      (List.range 5).all fun i =>
        cellHas b (r + ((i : Int) - (k : Int)) * d.1)
          (c + ((i : Int) - (k : Int)) * d.2) p

/-- A board with five black stones in a row for the C1 witness. -/
def winBoard : Board := fun r c =>
  if r = 0 ∧ 0 ≤ c ∧ c < 5 then some Player.black else none

/-- One entry of `moveHistory` (the JS `Date` timestamp is not modelled). -/
structure MoveRecord where
  row : Int
  col : Int
  player : Player
  moveNumber : Nat
deriving DecidableEq, Repr

/-- The Game class state.  `player1` / `player2` are socket ids (`none` for
the AI slot, which holds `null` in the source); player1 plays black and
player2 plays white.  The `id` is an opaque token (generated from the clock
and a random string in the source, taken as a parameter here); `createdAt`
and `lastMoveAt` timestamps are not modelled. -/
structure Game where
  id : Nat
  player1 : Option Nat
  player2 : Option Nat
  player1Name : String
  player2Name : String
  board : Board
  currentPlayer : Player
  winner : Option String
  gameOver : Bool
  moveCount : Nat
  moveHistory : List MoveRecord

/-- The Game constructor. -/
def newGame (id : Nat) (player1 player2 : Option Nat)
    (player1Name player2Name : String) : Game :=
  { id := id, player1 := player1, player2 := player2,
    player1Name := player1Name, player2Name := player2Name,
    board := initializeBoard, currentPlayer := Player.black,
    winner := none, gameOver := false, moveCount := 0, moveHistory := [] }

/-- Result object of `Game.isValidMove`: `{valid: true}` or
`{valid: false, reason}`. -/
inductive Valid where
  | ok
  | err (why : String)
deriving DecidableEq, Repr

/-- The `valid` field. -/
def Valid.isOk : Valid → Bool
  | .ok => true
  | .err _ => false

/-- Game.isValidMove(row, col, player): bounds, emptiness, turn and
game-over checks, in source order, reporting the first failure. -/
def isValidMove (g : Game) (row col : Int) (p : Player) : Valid :=
  if row < 0 ∨ 19 ≤ row ∨ col < 0 ∨ 19 ≤ col then .err "Move out of bounds"
  else if g.board row col ≠ none then .err "Position already occupied"
  else if g.currentPlayer ≠ p then .err "Not your turn"
  else if g.gameOver then .err "Game is over"
  else .ok

/-- Result object of `Game.makeMove`. -/
inductive MoveResult where
  | failure (why : String)
  | success (gameOver : Bool) (winner : Option String) (currentPlayer : Player)
deriving DecidableEq, Repr

/-- The `success` field. -/
def MoveResult.ok : MoveResult → Bool
  | .failure _ => false
  | .success _ _ _ => true

/-- Game.makeMove(row, col, player): validate, place the stone, extend the
history, then either mark a win, mark a draw on the 361st stone, or switch
the turn.  The mutation of `this` is modelled by returning the updated
game alongside the result object. -/
def makeMove (g : Game) (row col : Int) (p : Player) : MoveResult × Game :=
  match isValidMove g row col p with
  | .err why => (.failure why, g)
  | .ok =>
    let board' := boardSet g.board row col (some p)
    let moveCount' := g.moveCount + 1
    let history' := g.moveHistory ++ [⟨row, col, p, moveCount'⟩]
    let winResult := checkWin board' row col p
    let g' :=
      if winResult.won then
        { g with board := board', moveCount := moveCount',
                 moveHistory := history', gameOver := true,
                 winner := some p.str }
      else if 19 * 19 ≤ moveCount' then
        { g with board := board', moveCount := moveCount',
                 moveHistory := history', gameOver := true,
                 winner := some "draw" }
      else
        { g with board := board', moveCount := moveCount',
                 moveHistory := history',
                 currentPlayer :=
                   if g.currentPlayer = Player.black then Player.white
                   else Player.black }
    (.success g'.gameOver g'.winner g'.currentPlayer, g')

/-- The game reset performed by the startOver / newGame / AI-reset
handlers: board, turn, winner, gameOver, moveCount and history return to
their initial values; everything else is untouched. -/
def resetGame (g : Game) : Game :=
  { g with board := initializeBoard, currentPlayer := Player.black,
           winner := none, gameOver := false, moveCount := 0,
           moveHistory := [] }

/-- The body of the disconnect grace timer once it fires with the peer
still connected: `game.gameOver = true; game.winner = 'disconnect'`. -/
def disconnectExpire (g : Game) : Game :=
  { g with gameOver := true, winner := some "disconnect" }

/-- Game states reachable through the operations that write game fields:
construction, makeMove, the shared reset, and the disconnect-timer body. -/
inductive ReachableGame : Game → Prop
  | init (id : Nat) (p1 p2 : Option Nat) (n1 n2 : String) :
      ReachableGame (newGame id p1 p2 n1 n2)
  | move (g : Game) (row col : Int) (p : Player) :
      ReachableGame g → ReachableGame (makeMove g row col p).2
  | reset (g : Game) : ReachableGame g → ReachableGame (resetGame g)
  | expire (g : Game) : ReachableGame g → ReachableGame (disconnectExpire g)

/-- Board of the C2 counterexample: black on (0,0),(0,1),(0,2),(0,3),(0,5),
white on (10,0),(10,1),(10,2),(10,3); black to move at (0,4) makes a
six-in-a-row. -/
def sixRowBoard : Board := fun r c =>
  if r = 0 ∧ (c = 0 ∨ c = 1 ∨ c = 2 ∨ c = 3 ∨ c = 5) then some Player.black
  else if r = 10 ∧ (c = 0 ∨ c = 1 ∨ c = 2 ∨ c = 3) then some Player.white
  else none

/-- Game holding `sixRowBoard` with black to move. -/
def sixRowGame : Game :=
  { id := 1, player1 := some 1, player2 := some 2, player1Name := "alice",
    player2Name := "bob", board := sixRowBoard,
    currentPlayer := Player.black, winner := none, gameOver := false,
    moveCount := 9, moveHistory := [] }

/-- An outbound event: target channel (`none` means a broadcast to the game
room) and event name.  Payloads are not modelled. -/
abbrev Ev := Option Nat × String

/-- Pointwise update of a finite map represented as a function; `none`
deletes the key. -/
def updMap {α β : Type} [DecidableEq α] (m : α → Option β) (k : α)
    (v : Option β) : α → Option β :=
  fun x => if x = k then v else m x

/-- The module-level mutable state of the server: the games map, the
matchmaking queue, the start-over vote sets, the socket-to-name map and the
name-to-game map.  (`gameHistory` is a write-only audit log and `playerNames`
is only read by the username handler; neither is needed by the verified
properties.) -/
structure ServerState where
  games : Nat → Option Game
  waitingPlayers : List Nat
  startOverRequests : Nat → Option (Finset Nat)
  connectedPlayers : Nat → Option String
  playerGameMap : String → Option Nat

/-- The makeMove socket handler: username guard, input validation, game
lookup, membership check, then `Game.makeMove` with black for the player1
socket and white for the player2 socket, storing back the updated game and
emitting the update / confirmation / end events. -/
def handleMakeMove (s : ServerState) (sid gameId : Nat) (row col : Int) :
    ServerState × List Ev :=
  match s.connectedPlayers sid with
  | none => (s, [(some sid, "usernameRequired")])
  | some _playerName =>
    if gameId = 0 then (s, [(some sid, "moveError")])
    else if row < 0 ∨ 19 ≤ row ∨ col < 0 ∨ 19 ≤ col then
      (s, [(some sid, "moveError")])
    else
      match s.games gameId with
      | none => (s, [(some sid, "moveError")])
      | some game =>
        if game.player1 ≠ some sid ∧ game.player2 ≠ some sid then
          (s, [(some sid, "moveError")])
        else
          let p :=
            if game.player1 = some sid then Player.black else Player.white
          let res := makeMove game row col p
          match res.1 with
          | .failure _ => (s, [(some sid, "moveError")])
          | .success gOver _ _ =>
            ({ s with games := updMap s.games gameId (some res.2) },
             (none, "gameUpdate") :: (some sid, "moveConfirmed") ::
               (if gOver then [(none, "gameEnded")] else []))

/-- The requestStartOver handler: records the vote of this socket for the
game; once two distinct sockets have voted, resets the game and clears the
votes.  (The source emits startOverRequested on the peer socket without a
null check; the `match` below covers the AI slot of the variant file.) -/
def handleRequestStartOver (s : ServerState) (sid gameId : Nat) :
    ServerState × List Ev :=
  match s.connectedPlayers sid with
  | none => (s, [(some sid, "usernameRequired")])
  | some _playerName =>
    if gameId = 0 then (s, [(some sid, "startOverError")])
    else
      match s.games gameId with
      | none => (s, [(some sid, "startOverError")])
      | some game =>
        if game.player1 ≠ some sid ∧ game.player2 ≠ some sid then
          (s, [(some sid, "startOverError")])
        else
          let requests := insert sid ((s.startOverRequests gameId).getD ∅)
          let otherPlayer :=
            if game.player1 = some sid then game.player2 else game.player1
          let notifyOther : List Ev :=
            match otherPlayer with
            | some o => [(some o, "startOverRequested")]
            | none => []
          if requests.card = 2 then
            ({ s with
                games := updMap s.games gameId (some (resetGame game)),
                startOverRequests := updMap s.startOverRequests gameId none },
             notifyOther ++ [(none, "gameRestarted")])
          else
            ({ s with
                startOverRequests :=
                  updMap s.startOverRequests gameId (some requests) },
             notifyOther)

/-- The requestNewGame handler: pure notification — the proposal is not
recorded anywhere in the server state. -/
def handleRequestNewGame (s : ServerState) (sid gameId : Nat) :
    ServerState × List Ev :=
  match s.connectedPlayers sid with
  | none => (s, [(some sid, "usernameRequired")])
  | some _playerName =>
    if gameId = 0 then (s, [(some sid, "newGameError")])
    else
      match s.games gameId with
      | none => (s, [(some sid, "newGameError")])
      | some game =>
        if game.player1 ≠ some sid ∧ game.player2 ≠ some sid then
          (s, [(some sid, "newGameError")])
        else
          let otherPlayer :=
            if game.player1 = some sid then game.player2 else game.player1
          ((s,
            (match otherPlayer with
             | some o => [(some o, "newGameRequested")]
             | none => []) ++ [(some sid, "newGameRequestSent")]))

/-- The respondToNewGame handler: on accept, resets the game where it
stands; on reject, notifies both sides and changes nothing.  No check that
a proposal was ever made. -/
def handleRespondToNewGame (s : ServerState) (sid gameId : Nat)
    (accept : Bool) : ServerState × List Ev :=
  match s.connectedPlayers sid with
  | none => (s, [(some sid, "usernameRequired")])
  | some _playerName =>
    if gameId = 0 then (s, [(some sid, "newGameError")])
    else
      match s.games gameId with
      | none => (s, [(some sid, "newGameError")])
      | some game =>
        if game.player1 ≠ some sid ∧ game.player2 ≠ some sid then
          (s, [(some sid, "newGameError")])
        else
          let otherPlayer :=
            if game.player1 = some sid then game.player2 else game.player1
          if accept then
            ({ s with games := updMap s.games gameId (some (resetGame game)) },
             [(none, "newGameStarted")])
          else
            (s,
             (match otherPlayer with
              | some o => [(some o, "newGameRejected")]
              | none => []) ++ [(some sid, "newGameResponseSent")])

/-- The leaveGame handler: silently ignored without a username; otherwise
tears down the game of the leaving player (if any) and leaves the wait
queue. -/
def handleLeaveGame (s : ServerState) (sid : Nat) : ServerState × List Ev :=
  match s.connectedPlayers sid with
  | none => (s, [])
  | some playerName =>
    let step :=
      match s.playerGameMap playerName with
      | none => (s, ([] : List Ev))
      | some gameId =>
        match s.games gameId with
        | none => (s, [])
        | some game =>
          let otherPlayer :=
            if game.player1 = some sid then game.player2 else game.player1
          ({ s with
              playerGameMap :=
                updMap (updMap s.playerGameMap game.player1Name none)
                  game.player2Name none,
              games := updMap s.games gameId none },
           match otherPlayer with
           | some o => [(some o, "opponentLeft")]
           | none => [])
    ({ step.1 with waitingPlayers := step.1.waitingPlayers.erase sid },
     step.2)

/-- The reconnectToGame handler: swaps the socket reference of the slot
held by the reconnecting name and resends the state.  (Cancellation of the
disconnect timer touches only the unmodelled timer handle.) -/
def handleReconnectToGame (s : ServerState) (sid : Nat) :
    ServerState × List Ev :=
  match s.connectedPlayers sid with
  | none => (s, [(some sid, "usernameRequired")])
  | some playerName =>
    match s.playerGameMap playerName with
    | none =>
      ({ s with playerGameMap := updMap s.playerGameMap playerName none },
       [(some sid, "reconnectError")])
    | some gameId =>
      match s.games gameId with
      | none =>
        ({ s with playerGameMap := updMap s.playerGameMap playerName none },
         [(some sid, "reconnectError")])
      | some game =>
        if game.player1Name ≠ playerName ∧ game.player2Name ≠ playerName then
          (s, [(some sid, "reconnectError")])
        else
          let game' :=
            if game.player1Name = playerName then
              { game with player1 := some sid }
            else { game with player2 := some sid }
          ({ s with games := updMap s.games gameId (some game') },
           [(some sid, "reconnectedToGame")])

/-- The playerDisconnect handler (explicit quit on tab close).  Unlike
every other session handler it has NO username guard: it trusts the gameId
and playerName carried by the message, notifies the peer and deletes the
game and both name mappings at once. -/
def handlePlayerDisconnect (s : ServerState) (sid gameId : Nat)
    (playerName : String) : ServerState × List Ev :=
  if gameId = 0 ∨ playerName = "" then (s, [])
  else
    match s.games gameId with
    | none => (s, [])
    | some game =>
      if game.player1Name ≠ playerName ∧ game.player2Name ≠ playerName then
        (s, [])
      else
        let otherPlayer :=
          if game.player1Name = playerName then game.player2 else game.player1
        ({ s with
            playerGameMap :=
              updMap (updMap s.playerGameMap game.player1Name none)
                game.player2Name none,
            games := updMap s.games gameId none },
         match otherPlayer with
         | some o => [(some o, "opponentDisconnected")]
         | none => [])

/-- A server state holding one live game (id 1, sockets 1 and 2,
authenticated as alice and bob); socket 5 has claimed no username. -/
def liveState : ServerState :=
  { games := updMap (fun _ => none) 1 (some sixRowGame),
    waitingPlayers := [],
    startOverRequests := fun _ => none,
    connectedPlayers := fun k =>
      if k = 1 then some "alice" else if k = 2 then some "bob" else none,
    playerGameMap := fun n =>
      if n = "alice" ∨ n = "bob" then some 1 else none }

/-- `liveState` with one start-over vote (socket 1) already recorded. -/
def votedState : ServerState :=
  { liveState with
      startOverRequests := updMap (fun _ => none) 1 (some {1}) }

/-- AIPlayer.getEmptyPositions: all empty cells in row-major order. -/
def getEmptyPositions (b : Board) : List (Int × Int) :=
  (List.range 19).flatMap fun row : Nat =>
    (List.range 19).filterMap fun col : Nat =>
      if b (row : Int) (col : Int) = none then
        some ((row : Int), (col : Int))
      else none

/-- AIPlayer.checkWinAtPosition: the same two scanning loops as `checkWin`
(the source duplicates them verbatim), returning only the boolean. -/
def checkWinAtPosition (b : Board) (r c : Int) (p : Player) : Bool :=
  directions.any fun d => decide (5 ≤ lineCount b p r c d.1 d.2)

/-- The body of the findWinningMove loop for one cell: temporarily place
the colour, test checkWinAtPosition, remove the stone (the removal is
implicit here since the board is a value). -/
def winsIfPlaced (b : Board) (p : Player) (pos : Int × Int) : Bool :=
  checkWinAtPosition (boardSet b pos.1 pos.2 (some p)) pos.1 pos.2 p

/-- AIPlayer.findWinningMove: the first empty cell, in list order, whose
hypothetical occupation by `p` wins. -/
def findWinningMove (b : Board) (p : Player)
    (emptyPositions : List (Int × Int)) : Option (Int × Int) :=
  emptyPositions.find? (winsIfPlaced b p)

/-- The run count of findThreatMove for one cell and axis: both loops run
i = 1..3 (fuel 3), unlike the win check which runs i = 1..4. -/
def threatCount (b : Board) (p : Player) (pos : Int × Int)
    (d : Int × Int) : Nat :=
  1 + runLen b p d.1 d.2 3 pos.1 pos.2 +
    runLen b p (-d.1) (-d.2) 3 pos.1 pos.2

/-- AIPlayer.findThreatMove: the first empty cell at which some axis would
reach a run of at least 4 for `p`. -/
def findThreatMove (b : Board) (p : Player)
    (emptyPositions : List (Int × Int)) : Option (Int × Int) :=
  emptyPositions.find? fun pos =>
    directions.any fun d => decide (4 ≤ threatCount b p pos d)

/-- The score of one candidate cell in findStrategicMove: proximity credit
for every occupied cell within Manhattan distance 3 (doubled for own
stones) plus the centre bonus.  The JS floats involved are halves of
integers, represented exactly by rationals. -/
def posScore (b : Board) (aiPlayer : Player) (pos : Int × Int) : Rat :=
  ((List.range 19).map fun row : Nat =>
    ((List.range 19).map fun col : Nat =>
      match b (row : Int) (col : Int) with
      | none => (0 : Rat)
      | some q =>
        let distance :=
          (pos.1 - (row : Int)).natAbs + (pos.2 - (col : Int)).natAbs
        if distance ≤ 3 then
          ((4 : Rat) - (distance : Rat)) *
            (if q = aiPlayer then 2 else 1)
        else 0).sum).sum +
  ((18 : Rat) - (((pos.1 - 9).natAbs + (pos.2 - 9).natAbs : Nat) : Rat)) *
    (1 / 2)

/-- AIPlayer.findStrategicMove: score every empty cell, sort descending by
score (the JS comparator `b.score - a.score` under the stable Array sort)
and take the head.  The humanPlayer argument is received but never read,
as in the source. -/
def findStrategicMove (b : Board) (aiPlayer _humanPlayer : Player)
    (emptyPositions : List (Int × Int)) : Option (Int × Int) :=
  let scoredMoves := emptyPositions.map fun pos => (pos, posScore b aiPlayer pos)
  let sorted := scoredMoves.mergeSort fun x y => decide (y.2 ≤ x.2)
  sorted.head?.map Prod.fst

/-- AIPlayer.getBestMove: the five priorities in source order, falling back
to a random empty cell; `rand` abstracts `Math.random` in getRandomMove. -/
def getBestMove (rand : List (Int × Int) → Int × Int) (b : Board)
    (aiPlayer humanPlayer : Player) : Option (Int × Int) :=
  let emptyPositions := getEmptyPositions b
  if emptyPositions.length = 0 then none
  else
    match findWinningMove b aiPlayer emptyPositions with
    | some m => some m
    | none =>
      match findWinningMove b humanPlayer emptyPositions with
      | some m => some m
      | none =>
        match findThreatMove b humanPlayer emptyPositions with
        | some m => some m
        | none =>
          match findThreatMove b aiPlayer emptyPositions with
          | some m => some m
          | none =>
            match findStrategicMove b aiPlayer humanPlayer emptyPositions with
            | some m => some m
            | none => some (rand emptyPositions)

/-- An open-ended four-in-a-row for `p`: four consecutive stones starting
at (r, c) along axis d, with both extension cells on the board and empty. -/
def openFour (b : Board) (p : Player) (r c : Int) (d : Int × Int) : Prop :=
  (∀ i : Nat, i < 4 →
    cellHas b (r + (i : Int) * d.1) (c + (i : Int) * d.2) p = true) ∧
  onBoard (r - d.1) (c - d.2) = true ∧ b (r - d.1) (c - d.2) = none ∧
  onBoard (r + 4 * d.1) (c + 4 * d.2) = true ∧
  b (r + 4 * d.1) (c + 4 * d.2) = none

/-- C8 counterexample board: black (the human) holds an open-ended four on
row 9, while white (the AI) holds a four of its own completed by (0,4). -/
def aiCexBoard : Board := fun r c =>
  if r = 9 ∧ (c = 5 ∨ c = 6 ∨ c = 7 ∨ c = 8) then some Player.black
  else if r = 0 ∧ (c = 0 ∨ c = 1 ∨ c = 2 ∨ c = 3) then some Player.white
  else none

/-- The open-four board of the spec example: white on (9,5)..(9,8), all
other cells empty. -/
def aiOwnBoard : Board := fun r c =>
  if r = 9 ∧ (c = 5 ∨ c = 6 ∨ c = 7 ∨ c = 8) then some Player.white
  else none

instance (b : Board) (p : Player) (r c : Int) (d : Int × Int) :
    Decidable (openFour b p r c d) := by
  unfold openFour
  infer_instance

-- DEFStail

lemma cellHas_iff (b : Board) (r c : Int) (p : Player) :
    cellHas b r c p = true ↔
      (0 ≤ r ∧ r < 19 ∧ 0 ≤ c ∧ c < 19) ∧ b r c = some p := by
  simp [cellHas, onBoard]

lemma runLen_le (b : Board) (p : Player) (dr dc : Int) :
    ∀ (fuel : Nat) (r c : Int), runLen b p dr dc fuel r c ≤ fuel := by
  intro fuel
  induction fuel with
  | zero => intro r c; simp [runLen]
  | succ n ih =>
    intro r c
    simp only [runLen]
    split
    · exact Nat.succ_le_succ (ih _ _)
    · exact Nat.zero_le _

/-- Every index up to the computed run length is a cell holding `p`. -/
lemma runLen_spec (b : Board) (p : Player) (dr dc : Int) :
    ∀ (fuel : Nat) (r c : Int) (i : Nat), 1 ≤ i →
      i ≤ runLen b p dr dc fuel r c →
      cellHas b (r + (i : Int) * dr) (c + (i : Int) * dc) p = true := by
  intro fuel
  induction fuel with
  | zero => intro r c i h1 h2; simp [runLen] at h2; omega
  | succ n ih =>
    intro r c i h1 h2
    simp only [runLen] at h2
    split at h2
    · rename_i hcell
      match i, h1 with
      | 1, _ => simpa using hcell
      | (j + 2), _ =>
        have hj : j + 1 ≤ runLen b p dr dc n (r + dr) (c + dc) := by omega
        have := ih (r + dr) (c + dc) (j + 1) (by omega) hj
        have harg1 : r + dr + ((j : Int) + 1) * dr = r + ((j : Int) + 2) * dr := by
          ring
        have harg2 : c + dc + ((j : Int) + 1) * dc = c + ((j : Int) + 2) * dc := by
          ring
        push_cast at this ⊢
        rw [harg1, harg2] at this
        exact this
    · omega

/-- Conversely, a block of consecutive `p` cells forces a lower bound on the
computed run length. -/
lemma runLen_ge (b : Board) (p : Player) (dr dc : Int) :
    ∀ (fuel m : Nat) (r c : Int), m ≤ fuel →
      (∀ i : Nat, 1 ≤ i → i ≤ m →
        cellHas b (r + (i : Int) * dr) (c + (i : Int) * dc) p = true) →
      m ≤ runLen b p dr dc fuel r c := by
  intro fuel
  induction fuel with
  | zero => intro m r c hm _; omega
  | succ n ih =>
    intro m r c hm hall
    match m with
    | 0 => exact Nat.zero_le _
    | m' + 1 =>
      have hcell : cellHas b (r + dr) (c + dc) p = true := by
        have := hall 1 (by omega) (by omega)
        simpa using this
      simp only [runLen, hcell, if_pos]
      have : m' ≤ runLen b p dr dc n (r + dr) (c + dc) := by
        apply ih m' (r + dr) (c + dc) (by omega)
        intro i h1 h2
        have := hall (i + 1) (by omega) (by omega)
        have harg1 : r + ((i : Int) + 1) * dr = r + dr + (i : Int) * dr := by ring
        have harg2 : c + ((i : Int) + 1) * dc = c + dc + (i : Int) * dc := by ring
        push_cast at this
        rw [harg1, harg2] at this
        exact this
      omega

/-- Per-direction equivalence: the count of `checkWin` reaches 5 exactly when
some length-5 window through (r, c) along (dr, dc) is monochromatic. -/
lemma lineCount_iff_window (b : Board) (p : Player) (r c dr dc : Int)
    (hc : cellHas b r c p = true) :
    5 ≤ lineCount b p r c dr dc ↔
      ∃ k : Nat, k < 5 ∧ ∀ i : Nat, i < 5 →
        cellHas b (r + ((i : Int) - (k : Int)) * dr)
          (c + ((i : Int) - (k : Int)) * dc) p = true := by
  constructor
  · intro h5
    set F := runLen b p dr dc 4 r c with hFdef
    set B := runLen b p (-dr) (-dc) 4 r c with hBdef
    have hF : F ≤ 4 := runLen_le b p dr dc 4 r c
    have hB : B ≤ 4 := runLen_le b p (-dr) (-dc) 4 r c
    have hsum : 4 ≤ F + B := by
      simp only [lineCount] at h5; omega
    refine ⟨4 - F, by omega, ?_⟩
    intro i hi
    by_cases hik : 4 - F ≤ i
    · -- forward side (or the centre cell)
      rcases Nat.eq_or_lt_of_le hik with heq | hlt
      · have harg : ((i : Int) - ((4 - F : Nat) : Int)) = 0 := by
          rw [← heq]; ring
        rw [harg]
        simpa using hc
      · set j := i - (4 - F) with hjdef
        have hj1 : 1 ≤ j := by omega
        have hjF : j ≤ F := by omega
        have := runLen_spec b p dr dc 4 r c j hj1 (by rw [← hFdef]; exact hjF)
        have harg : ((i : Int) - ((4 - F : Nat) : Int)) = (j : Int) := by
          push_cast [hjdef]; omega
        rw [harg]
        exact this
    · -- backward side
      set j := (4 - F) - i with hjdef
      have hj1 : 1 ≤ j := by omega
      have hjB : j ≤ B := by omega
      have := runLen_spec b p (-dr) (-dc) 4 r c j hj1 (by rw [← hBdef]; exact hjB)
      have harg1 : r + ((i : Int) - ((4 - F : Nat) : Int)) * dr =
          r + (j : Int) * (-dr) := by
        have : ((i : Int) - ((4 - F : Nat) : Int)) = -(j : Int) := by
          push_cast [hjdef]; omega
        rw [this]; ring
      have harg2 : c + ((i : Int) - ((4 - F : Nat) : Int)) * dc =
          c + (j : Int) * (-dc) := by
        have : ((i : Int) - ((4 - F : Nat) : Int)) = -(j : Int) := by
          push_cast [hjdef]; omega
        rw [this]; ring
      rw [harg1, harg2]
      exact this
  · rintro ⟨k, hk, hall⟩
    have hF : 4 - k ≤ runLen b p dr dc 4 r c := by
      apply runLen_ge b p dr dc 4 (4 - k) r c (by omega)
      intro i h1 h2
      have := hall (i + k) (by omega)
      have harg : (((i + k : Nat) : Int) - (k : Int)) = (i : Int) := by
        push_cast; ring
      rw [harg] at this
      exact this
    have hB : k ≤ runLen b p (-dr) (-dc) 4 r c := by
      apply runLen_ge b p (-dr) (-dc) 4 k r c (by omega)
      intro i h1 h2
      have := hall (k - i) (by omega)
      have hcast : (((k - i : Nat) : Int) - (k : Int)) = -(i : Int) := by
        omega
      have harg1 : r + (((k - i : Nat) : Int) - (k : Int)) * dr =
          r + (i : Int) * (-dr) := by
        rw [hcast]; ring
      have harg2 : c + (((k - i : Nat) : Int) - (k : Int)) * dc =
          c + (i : Int) * (-dc) := by
        rw [hcast]; ring
      rw [harg1, harg2] at this
      exact this
    simp only [lineCount]
    omega

lemma checkWinGo_won_iff (b : Board) (r c : Int) (p : Player) :
    ∀ l : List (Int × Int), (checkWinGo b r c p l).won = true ↔
      ∃ d ∈ l, 5 ≤ lineCount b p r c d.1 d.2 := by
  intro l
  induction l with
  | nil => simp [checkWinGo]
  | cons hd tl ih =>
    obtain ⟨dr, dc⟩ := hd
    simp only [checkWinGo]
    split
    · rename_i h
      constructor
      · intro _
        exact ⟨(dr, dc), by simp, h⟩
      · intro _
        rfl
    · rename_i h
      rw [ih]
      constructor
      · rintro ⟨d, hdm, h5⟩
        exact ⟨d, List.mem_cons_of_mem _ hdm, h5⟩
      · rintro ⟨d, hdm, h5⟩
        rcases List.mem_cons.mp hdm with rfl | hmem
        · exact absurd h5 h
        · exact ⟨d, hmem, h5⟩

/-- C1.  For every board, cell and colour, with the stone of that colour in
place at (r, c), `checkWin` reports a win exactly when the brute-force scan
of all length-5 windows through (r, c) over the four axes finds a
monochromatic window; longer runs win too, and counting is truncated at the
board edges by the in-bounds guard inside `cellHas`. -/
theorem checkWin_agrees_bruteforce (b : Board) (r c : Int) (p : Player)
    (h : cellHas b r c p = true) :
    (checkWin b r c p).won = true ↔ bruteForceWinB b p r c = true := by
  rw [checkWin, checkWinGo_won_iff]
  simp only [bruteForceWinB, List.any_eq_true, List.all_eq_true, List.mem_range]
  constructor
  · rintro ⟨d, hd, h5⟩
    rw [lineCount_iff_window b p r c d.1 d.2 h] at h5
    obtain ⟨k, hk, hall⟩ := h5
    exact ⟨d, hd, k, hk, hall⟩
  · rintro ⟨d, hd, k, hk, hall⟩
    refine ⟨d, hd, ?_⟩
    rw [lineCount_iff_window b p r c d.1 d.2 h]
    exact ⟨k, hk, hall⟩

theorem checkWin_agrees_bruteforce_witness :
    cellHas winBoard 0 2 Player.black = true ∧
      ((checkWin winBoard 0 2 Player.black).won = true ↔
        bruteForceWinB winBoard Player.black 0 2 = true) :=
  ⟨by decide, checkWin_agrees_bruteforce winBoard 0 2 Player.black (by decide)⟩

lemma runCells_length (b : Board) (p : Player) (dr dc : Int) :
    ∀ (fuel : Nat) (r c : Int),
      (runCells b p dr dc fuel r c).length = runLen b p dr dc fuel r c := by
  intro fuel
  induction fuel with
  | zero => intro r c; simp [runCells, runLen]
  | succ n ih =>
    intro r c
    simp only [runCells, runLen]
    split
    · simp [ih]
    · simp

lemma runCells_getElem (b : Board) (p : Player) (dr dc : Int) :
    ∀ (fuel : Nat) (r c : Int) (i : Nat)
      (h : i < (runCells b p dr dc fuel r c).length),
      (runCells b p dr dc fuel r c)[i] =
        (r + ((i : Int) + 1) * dr, c + ((i : Int) + 1) * dc) := by
  intro fuel
  induction fuel with
  | zero => intro r c i h; simp [runCells] at h
  | succ n ih =>
    intro r c i h
    by_cases hcell : cellHas b (r + dr) (c + dc) p = true
    · have heq : runCells b p dr dc (n + 1) r c =
          (r + dr, c + dc) :: runCells b p dr dc n (r + dr) (c + dc) := by
        simp [runCells, hcell]
      simp only [heq] at h ⊢
      match i with
      | 0 =>
        simp only [List.getElem_cons_zero, Prod.mk.injEq]
        constructor <;> push_cast <;> ring
      | j + 1 =>
        simp only [List.getElem_cons_succ]
        rw [ih (r + dr) (c + dc) j (by simpa using h)]
        simp only [Prod.mk.injEq]
        constructor <;> push_cast <;> ring
    · have heq : runCells b p dr dc (n + 1) r c = [] := by
        simp [runCells, hcell]
      rw [heq] at h
      simp at h

/-- The winning-stone list for one direction is the block of consecutive
cells along that axis, from `back` cells before the placed stone to `fwd`
cells after it, listed in board order. -/
lemma lineStones_eq_map (b : Board) (p : Player) (r c dr dc : Int) :
    lineStones b p r c dr dc =
      (List.range (lineCount b p r c dr dc)).map
        (fun i : Nat =>
          (r + ((i : Int) - (runLen b p (-dr) (-dc) 4 r c : Int)) * dr,
           c + ((i : Int) - (runLen b p (-dr) (-dc) 4 r c : Int)) * dc)) := by
  apply List.ext_getElem
  · simp [lineStones, lineCount, runCells_length]
    omega
  · intro i h1 h2
    simp only [List.getElem_map, List.getElem_range]
    simp only [lineStones]
    have hlenB : ((runCells b p (-dr) (-dc) 4 r c).reverse).length =
        runLen b p (-dr) (-dc) 4 r c := by
      simp [runCells_length]
    by_cases hi : i < runLen b p (-dr) (-dc) 4 r c
    · rw [List.getElem_append_left (by rw [hlenB]; exact hi)]
      rw [List.getElem_reverse]
      rw [runCells_getElem]
      have hlen' : (runCells b p (-dr) (-dc) 4 r c).length =
          runLen b p (-dr) (-dc) 4 r c := runCells_length b p (-dr) (-dc) 4 r c
      simp only [Prod.mk.injEq]
      set B := runLen b p (-dr) (-dc) 4 r c with hBdef
      have hidx : (((B - 1 - i : Nat) : Int) + 1) = (B : Int) - i := by
        omega
      rw [hlen', hidx]
      constructor <;> ring
    · rw [List.getElem_append_right (by rw [hlenB]; omega)]
      simp only [hlenB]
      rcases Nat.eq_or_lt_of_le (Nat.le_of_not_lt hi) with heq | hlt
      · have hzero : i - runLen b p (-dr) (-dc) 4 r c = 0 := by omega
        simp only [hzero, List.getElem_cons_zero, Prod.mk.injEq]
        have hiB : ((i : Int) - (runLen b p (-dr) (-dc) 4 r c : Int)) = 0 := by
          omega
        rw [hiB]
        constructor <;> ring
      · obtain ⟨j, hj⟩ : ∃ j, i - runLen b p (-dr) (-dc) 4 r c = j + 1 :=
          ⟨i - runLen b p (-dr) (-dc) 4 r c - 1, by omega⟩
        simp only [hj, List.getElem_cons_succ]
        rw [runCells_getElem]
        simp only [Prod.mk.injEq]
        have hidx : ((j : Int) + 1) =
            (i : Int) - (runLen b p (-dr) (-dc) 4 r c : Int) := by
          omega
        rw [hidx]
        constructor <;> ring

lemma checkWinGo_stones (b : Board) (r c : Int) (p : Player) :
    ∀ l : List (Int × Int), (checkWinGo b r c p l).won = true →
      ∃ d ∈ l, 5 ≤ lineCount b p r c d.1 d.2 ∧
        (checkWinGo b r c p l).winningStones = lineStones b p r c d.1 d.2 := by
  intro l
  induction l with
  | nil => intro h; simp [checkWinGo] at h
  | cons hd tl ih =>
    obtain ⟨dr, dc⟩ := hd
    intro h
    simp only [checkWinGo] at h ⊢
    split at h
    · rename_i h5
      rw [if_pos h5]
      exact ⟨(dr, dc), by simp, h5, rfl⟩
    · rename_i h5
      rw [if_neg h5]
      obtain ⟨d, hdm, hc5, hst⟩ := ih h
      exact ⟨d, List.mem_cons_of_mem _ hdm, hc5, hst⟩

/-- C2 (amended).  For every winning invocation of `checkWin`, the returned
stones are the full contiguous run along the winning axis through the
placed cell (clipped at 4 cells on each side): a list of `back + 1 + fwd`
consecutive cells in board order along the axis — at least 5 of them, not
always exactly 5. -/
theorem checkWin_stones_board_order (b : Board) (r c : Int) (p : Player)
    (h : (checkWin b r c p).won = true) :
    ∃ d ∈ directions, ∃ back fwd : Nat, back ≤ 4 ∧ fwd ≤ 4 ∧
      5 ≤ back + 1 + fwd ∧
      (checkWin b r c p).winningStones =
        (List.range (back + 1 + fwd)).map
          (fun i : Nat => (r + ((i : Int) - (back : Int)) * d.1,
                           c + ((i : Int) - (back : Int)) * d.2)) := by
  obtain ⟨d, hd, h5, hst⟩ := checkWinGo_stones b r c p directions h
  refine ⟨d, hd, runLen b p (-d.1) (-d.2) 4 r c, runLen b p d.1 d.2 4 r c,
    runLen_le b p (-d.1) (-d.2) 4 r c, runLen_le b p d.1 d.2 4 r c, ?_, ?_⟩
  · simp only [lineCount] at h5
    omega
  · rw [checkWin, hst, lineStones_eq_map]
    have hlen : lineCount b p r c d.1 d.2 =
        runLen b p (-d.1) (-d.2) 4 r c + 1 + runLen b p d.1 d.2 4 r c := by
      simp only [lineCount]
      omega
    rw [hlen]

/-- C2 counterexample: a legal winning move that produces a six-in-a-row;
`checkWin` reports the win and returns six stones, not five. -/
theorem checkWin_six_stones_cex :
    (makeMove sixRowGame 0 4 Player.black).1.ok = true ∧
    (checkWin (makeMove sixRowGame 0 4 Player.black).2.board 0 4
        Player.black).won = true ∧
    (checkWin (makeMove sixRowGame 0 4 Player.black).2.board 0 4
        Player.black).winningStones.length = 6 := by
  decide

theorem checkWin_stones_board_order_witness :
    (checkWin (boardSet sixRowBoard 0 4 (some Player.black)) 0 4
        Player.black).won = true ∧
    (∃ d ∈ directions, ∃ back fwd : Nat, back ≤ 4 ∧ fwd ≤ 4 ∧
      5 ≤ back + 1 + fwd ∧
      (checkWin (boardSet sixRowBoard 0 4 (some Player.black)) 0 4
          Player.black).winningStones =
        (List.range (back + 1 + fwd)).map
          (fun i : Nat => ((0 : Int) + ((i : Int) - (back : Int)) * d.1,
                           (4 : Int) + ((i : Int) - (back : Int)) * d.2))) :=
  ⟨by decide,
    checkWin_stones_board_order (boardSet sixRowBoard 0 4 (some Player.black))
      0 4 Player.black (by decide)⟩

/-- Shared characterisation of the `valid` flag of `isValidMove`. -/
lemma isValidMove_ok_iff (g : Game) (row col : Int) (p : Player) :
    (isValidMove g row col p).isOk = true ↔
      (0 ≤ row ∧ row < 19 ∧ 0 ≤ col ∧ col < 19) ∧ g.board row col = none ∧
        g.currentPlayer = p ∧ g.gameOver = false := by
  unfold isValidMove
  split_ifs with h1 h2 h3 h4
  · simp only [Valid.isOk, Bool.false_eq_true, false_iff]
    rintro ⟨⟨ha, hb, hc, hd⟩, -, -, -⟩
    omega
  · simp only [Valid.isOk, Bool.false_eq_true, false_iff]
    rintro ⟨-, hemp, -, -⟩
    exact h2 hemp
  · simp only [Valid.isOk, Bool.false_eq_true, false_iff]
    rintro ⟨-, -, hturn, -⟩
    exact h3 hturn
  · simp only [Valid.isOk, Bool.false_eq_true, false_iff]
    rintro ⟨-, -, -, hgo⟩
    rw [hgo] at h4
    exact Bool.false_ne_true h4
  · simp only [Valid.isOk, true_iff]
    refine ⟨by omega, not_not.mp h2, not_not.mp h3, ?_⟩
    exact Bool.not_eq_true g.gameOver ▸ h4

/-- C3.  The legality check accepts exactly when the move is in bounds, the
cell is empty, the colour matches the turn and the game is not over; on
rejection it reports the reason of the first failing condition, tested in
the order bounds, occupancy, turn, game over. -/
theorem isValidMove_correct (g : Game) (row col : Int) (p : Player) :
    ((isValidMove g row col p).isOk = true ↔
      (0 ≤ row ∧ row < 19 ∧ 0 ≤ col ∧ col < 19) ∧ g.board row col = none ∧
        g.currentPlayer = p ∧ g.gameOver = false) ∧
    (¬(0 ≤ row ∧ row < 19 ∧ 0 ≤ col ∧ col < 19) →
      isValidMove g row col p = .err "Move out of bounds") ∧
    ((0 ≤ row ∧ row < 19 ∧ 0 ≤ col ∧ col < 19) → g.board row col ≠ none →
      isValidMove g row col p = .err "Position already occupied") ∧
    ((0 ≤ row ∧ row < 19 ∧ 0 ≤ col ∧ col < 19) → g.board row col = none →
      g.currentPlayer ≠ p → isValidMove g row col p = .err "Not your turn") ∧
    ((0 ≤ row ∧ row < 19 ∧ 0 ≤ col ∧ col < 19) → g.board row col = none →
      g.currentPlayer = p → g.gameOver = true →
      isValidMove g row col p = .err "Game is over") := by
  refine ⟨isValidMove_ok_iff g row col p, ?_, ?_, ?_, ?_⟩
  · intro hb
    unfold isValidMove
    rw [if_pos (by omega)]
  · intro hb hocc
    unfold isValidMove
    rw [if_neg (by omega), if_pos hocc]
  · intro hb hemp hturn
    unfold isValidMove
    rw [if_neg (by omega), if_neg (by simp [hemp]), if_pos hturn]
  · intro hb hemp hturn hgo
    unfold isValidMove
    rw [if_neg (by omega), if_neg (by simp [hemp]),
      if_neg (by simp [hturn]), if_pos (by simp [hgo])]

theorem isValidMove_correct_witness :
    isValidMove sixRowGame 19 0 Player.black = .err "Move out of bounds" :=
  (isValidMove_correct sixRowGame 19 0 Player.black).2.1 (by decide)

/-- C4.  A rejected move leaves the game completely unchanged: board, move
count, turn, history and the end-of-game fields are those of the input. -/
theorem makeMove_illegal_frames (g : Game) (row col : Int) (p : Player)
    (h : (makeMove g row col p).1.ok = false) :
    (makeMove g row col p).2 = g := by
  rcases hv : isValidMove g row col p with _ | why
  · exfalso
    simp [makeMove, hv, MoveResult.ok] at h
  · simp [makeMove, hv]

theorem makeMove_illegal_frames_witness :
    (makeMove sixRowGame 0 0 Player.black).1.ok = false ∧
    (makeMove sixRowGame 0 0 Player.black).2 = sixRowGame :=
  ⟨by decide, makeMove_illegal_frames sixRowGame 0 0 Player.black (by decide)⟩

lemma makeMove_ok_imp_valid (g : Game) (row col : Int) (p : Player)
    (h : (makeMove g row col p).1.ok = true) :
    (isValidMove g row col p).isOk = true := by
  rcases hv : isValidMove g row col p with _ | why
  · simp [Valid.isOk]
  · exfalso
    simp [makeMove, hv, MoveResult.ok] at h

/-- C5.  A successful move that leaves the game running hands the turn to
the opposite colour, so an immediately following move by the same colour is
rejected; a successful move that ends the game causes every further move by
anyone to be rejected. -/
theorem makeMove_no_double_turn (g : Game) (row col : Int) (p : Player)
    (h : (makeMove g row col p).1.ok = true) :
    ((makeMove g row col p).2.gameOver = false →
      (makeMove g row col p).2.currentPlayer = p.other ∧
      ∀ row' col' : Int,
        (makeMove (makeMove g row col p).2 row' col' p).1.ok = false) ∧
    ((makeMove g row col p).2.gameOver = true →
      ∀ (row' col' : Int) (q : Player),
        (makeMove (makeMove g row col p).2 row' col' q).1.ok = false) := by
  rcases hv : isValidMove g row col p with _ | why
  · obtain ⟨hb, hemp, hturn, hnotover⟩ :=
      (isValidMove_ok_iff g row col p).mp (by rw [hv]; rfl)
    constructor
    · intro hgo
      by_cases hw :
          (checkWin (boardSet g.board row col (some p)) row col p).won = true
      · exfalso
        have : (makeMove g row col p).2.gameOver = true := by
          simp [makeMove, hv, hw]
        rw [this] at hgo
        simp at hgo
      · by_cases hdraw : 19 * 19 ≤ g.moveCount + 1
        · exfalso
          have : (makeMove g row col p).2.gameOver = true := by
            simp [makeMove, hv, hw, hdraw]
          rw [this] at hgo
          simp at hgo
        · have hsnd : (makeMove g row col p).2 =
              { g with board := boardSet g.board row col (some p),
                       moveCount := g.moveCount + 1,
                       moveHistory :=
                         g.moveHistory ++ [⟨row, col, p, g.moveCount + 1⟩],
                       currentPlayer :=
                         if g.currentPlayer = Player.black then Player.white
                         else Player.black } := by
            simp [makeMove, hv, hw, hdraw]
          have hcp : (makeMove g row col p).2.currentPlayer = p.other := by
            rw [hsnd]
            simp only [hturn]
            cases p <;> simp [Player.other]
          refine ⟨hcp, ?_⟩
          intro row' col'
          apply Bool.eq_false_iff.mpr
          intro hmk
          have hvv := makeMove_ok_imp_valid _ _ _ _ hmk
          rw [isValidMove_ok_iff] at hvv
          obtain ⟨-, -, hturn', -⟩ := hvv
          rw [hcp] at hturn'
          cases p <;> simp [Player.other] at hturn'
    · intro hgo row' col' q
      apply Bool.eq_false_iff.mpr
      intro hmk
      have hvv := makeMove_ok_imp_valid _ _ _ _ hmk
      rw [isValidMove_ok_iff] at hvv
      obtain ⟨-, -, -, hno⟩ := hvv
      rw [hno] at hgo
      exact Bool.false_ne_true hgo
  · exfalso
    simp [makeMove, hv, MoveResult.ok] at h

theorem makeMove_no_double_turn_witness :
    (makeMove sixRowGame 5 5 Player.black).1.ok = true ∧
    (makeMove sixRowGame 5 5 Player.black).2.currentPlayer = Player.white ∧
    (makeMove (makeMove sixRowGame 5 5 Player.black).2 6 6
        Player.black).1.ok = false := by
  refine ⟨by decide, ?_, ?_⟩
  · exact ((makeMove_no_double_turn sixRowGame 5 5 Player.black
      (by decide)).1 (by decide)).1
  · exact ((makeMove_no_double_turn sixRowGame 5 5 Player.black
      (by decide)).1 (by decide)).2 6 6

/-- C7.  In every reachable game state, the winner field (the outcome:
`null` for none, "black" for black-won, "white" for white-won, "draw" for
draw, "disconnect" for abandoned) holds one of exactly these five values;
no operation writes anything else. -/
theorem winner_in_outcome_set (g : Game) (h : ReachableGame g) :
    g.winner = none ∨ g.winner = some "black" ∨ g.winner = some "white" ∨
      g.winner = some "draw" ∨ g.winner = some "disconnect" := by
  induction h with
  | init id p1 p2 n1 n2 => left; rfl
  | move g row col p hg ih =>
    rcases hv : isValidMove g row col p with _ | why
    · by_cases hw :
          (checkWin (boardSet g.board row col (some p)) row col p).won = true
      · have hwin : (makeMove g row col p).2.winner = some p.str := by
          simp [makeMove, hv, hw]
        rw [hwin]
        cases p <;> simp [Player.str]
      · by_cases hdraw : 19 * 19 ≤ g.moveCount + 1
        · have hwin : (makeMove g row col p).2.winner = some "draw" := by
            simp [makeMove, hv, hw, hdraw]
          rw [hwin]
          simp
        · have hwin : (makeMove g row col p).2.winner = g.winner := by
            simp [makeMove, hv, hw, hdraw]
          rw [hwin]
          exact ih
    · have hfr : (makeMove g row col p).2 = g := by
        simp [makeMove, hv]
      rw [hfr]
      exact ih
  | reset g hg ih => left; rfl
  | expire g hg ih =>
    have : (disconnectExpire g).winner = some "disconnect" := rfl
    rw [this]
    simp

theorem winner_in_outcome_set_witness :
    (newGame 7 (some 1) (some 2) "alice" "bob").winner = none ∨
    (newGame 7 (some 1) (some 2) "alice" "bob").winner = some "black" ∨
    (newGame 7 (some 1) (some 2) "alice" "bob").winner = some "white" ∨
    (newGame 7 (some 1) (some 2) "alice" "bob").winner = some "draw" ∨
    (newGame 7 (some 1) (some 2) "alice" "bob").winner = some "disconnect" :=
  winner_in_outcome_set (newGame 7 (some 1) (some 2) "alice" "bob")
    (ReachableGame.init 7 (some 1) (some 2) "alice" "bob")

/-- C6.  When the second distinct vote arrives, the restart resets the
board to all-empty, the turn to black (the first mover), the move count to
0, the history to empty and the winner to none, while the game id, both
names and both slot assignments (hence the colour of each participant) are
unchanged, and the vote set for the game is cleared. -/
theorem startOver_consensus_resets (s : ServerState) (sid gameId : Nat)
    (name : String) (g : Game)
    (hconn : s.connectedPlayers sid = some name)
    (hgid : gameId ≠ 0)
    (hg : s.games gameId = some g)
    (hmem : g.player1 = some sid ∨ g.player2 = some sid)
    (hcard : (insert sid ((s.startOverRequests gameId).getD ∅)).card = 2) :
    (handleRequestStartOver s sid gameId).1.games gameId =
        some (resetGame g) ∧
    (resetGame g).board = initializeBoard ∧
    (resetGame g).currentPlayer = Player.black ∧
    (resetGame g).moveCount = 0 ∧
    (resetGame g).moveHistory = [] ∧
    (resetGame g).winner = none ∧
    (resetGame g).gameOver = false ∧
    (resetGame g).id = g.id ∧
    (resetGame g).player1 = g.player1 ∧
    (resetGame g).player2 = g.player2 ∧
    (resetGame g).player1Name = g.player1Name ∧
    (resetGame g).player2Name = g.player2Name ∧
    (handleRequestStartOver s sid gameId).1.startOverRequests gameId =
      none := by
  have hnotmem : ¬(g.player1 ≠ some sid ∧ g.player2 ≠ some sid) := by
    tauto
  refine ⟨?_, rfl, rfl, rfl, rfl, rfl, rfl, rfl, rfl, rfl, rfl, rfl, ?_⟩ <;>
    simp [handleRequestStartOver, hconn, hgid, hg, hnotmem, hcard, updMap]

theorem startOver_consensus_resets_witness :
    (insert 2 ((votedState.startOverRequests 1).getD ∅)).card = 2 ∧
    (handleRequestStartOver votedState 2 1).1.games 1 =
      some (resetGame sixRowGame) ∧
    (handleRequestStartOver votedState 2 1).1.startOverRequests 1 = none :=
  ⟨by decide,
    (startOver_consensus_resets votedState 2 1 "bob" sixRowGame rfl
      (by decide) rfl (Or.inr rfl) (by decide)).1,
    (startOver_consensus_resets votedState 2 1 "bob" sixRowGame rfl
      (by decide) rfl (Or.inr rfl) (by decide)).2.2.2.2.2.2.2.2.2.2.2.2⟩

/-- C9 (amended).  Every inbound session operation EXCEPT the explicit
quit/disconnect notification checks the identity claim first: on a channel
with no claimed username, move submission, restart request, new-game
request, new-game response, reconnect and leave are refused with no change
to the games map, the wait queue, the vote sets or the player mappings.
The playerDisconnect notification carries no such guard (see the
counterexample). -/
theorem unauthenticated_ops_refused (s : ServerState) (sid : Nat)
    (hconn : s.connectedPlayers sid = none) :
    (∀ (gameId : Nat) (row col : Int),
      handleMakeMove s sid gameId row col =
        (s, [(some sid, "usernameRequired")])) ∧
    (∀ gameId : Nat,
      handleRequestStartOver s sid gameId =
        (s, [(some sid, "usernameRequired")])) ∧
    (∀ gameId : Nat,
      handleRequestNewGame s sid gameId =
        (s, [(some sid, "usernameRequired")])) ∧
    (∀ (gameId : Nat) (accept : Bool),
      handleRespondToNewGame s sid gameId accept =
        (s, [(some sid, "usernameRequired")])) ∧
    (handleReconnectToGame s sid = (s, [(some sid, "usernameRequired")])) ∧
    (handleLeaveGame s sid = (s, [])) := by
  refine ⟨?_, ?_, ?_, ?_, ?_, ?_⟩ <;> intros <;>
    simp [handleMakeMove, handleRequestStartOver, handleRequestNewGame,
      handleRespondToNewGame, handleReconnectToGame, handleLeaveGame, hconn]

theorem unauthenticated_ops_refused_witness :
    liveState.connectedPlayers 5 = none ∧
    handleMakeMove liveState 5 1 0 0 =
      (liveState, [(some 5, "usernameRequired")]) ∧
    handleLeaveGame liveState 5 = (liveState, []) :=
  ⟨rfl, (unauthenticated_ops_refused liveState 5 rfl).1 1 0 0,
    (unauthenticated_ops_refused liveState 5 rfl).2.2.2.2.2⟩

/-- C9 counterexample: a channel that never claimed a username sends the
playerDisconnect notification naming a live game and one of its players;
the game is torn down — shared state is mutated by an unauthenticated
operation. -/
theorem playerDisconnect_no_auth_cex :
    liveState.connectedPlayers 5 = none ∧
    liveState.games 1 = some sixRowGame ∧
    (handlePlayerDisconnect liveState 5 1 "alice").1.games 1 = none ∧
    (handlePlayerDisconnect liveState 5 1 "alice").1.playerGameMap
      "alice" = none := by
  refine ⟨rfl, rfl, ?_, ?_⟩ <;>
    simp [handlePlayerDisconnect, liveState, sixRowGame, updMap]

/-- C10.  The new-game response performs the full reset whenever the
responder is authenticated, the game exists and the responder holds a slot
— there is no hypothesis about a pending proposal (the state records none:
the request handler never writes the server state) and none about the game
being over, so either participant can reset a game in progress at will. -/
theorem respondNewGame_accept_resets (s : ServerState) (sid gameId : Nat)
    (name : String) (g : Game)
    (hconn : s.connectedPlayers sid = some name)
    (hgid : gameId ≠ 0)
    (hg : s.games gameId = some g)
    (hmem : g.player1 = some sid ∨ g.player2 = some sid) :
    (handleRespondToNewGame s sid gameId true).1.games gameId =
        some (resetGame g) ∧
    (resetGame g).board = initializeBoard ∧
    (resetGame g).currentPlayer = Player.black ∧
    (resetGame g).winner = none ∧
    (resetGame g).gameOver = false ∧
    (resetGame g).moveCount = 0 ∧
    (∀ sid2 : Nat, (handleRequestNewGame s sid2 gameId).1 = s) := by
  have hnotmem : ¬(g.player1 ≠ some sid ∧ g.player2 ≠ some sid) := by
    tauto
  refine ⟨?_, rfl, rfl, rfl, rfl, rfl, ?_⟩
  · simp [handleRespondToNewGame, hconn, hgid, hg, hnotmem, updMap]
  · intro sid2
    rcases hc : s.connectedPlayers sid2 with _ | nm
    · simp [handleRequestNewGame, hc]
    · by_cases h0 : gameId = 0
      · simp [handleRequestNewGame, hc, h0]
      · simp only [handleRequestNewGame, hc, h0, hg]
        split_ifs <;> rfl

theorem respondNewGame_accept_resets_witness :
    liveState.games 1 = some sixRowGame ∧
    sixRowGame.gameOver = false ∧
    sixRowGame.moveCount = 9 ∧
    (handleRespondToNewGame liveState 2 1 true).1.games 1 =
      some (resetGame sixRowGame) :=
  ⟨rfl, rfl, rfl,
    (respondNewGame_accept_resets liveState 2 1 "bob" sixRowGame rfl
      (by decide) rfl (Or.inr rfl)).1⟩

lemma mem_getEmptyPositions (b : Board) (x y : Int) :
    (x, y) ∈ getEmptyPositions b ↔
      0 ≤ x ∧ x < 19 ∧ 0 ≤ y ∧ y < 19 ∧ b x y = none := by
  simp only [getEmptyPositions, List.mem_flatMap, List.mem_filterMap,
    List.mem_range]
  constructor
  · rintro ⟨row, hrow, col, hcol, hsome⟩
    by_cases hb : b (row : Int) (col : Int) = none
    · rw [if_pos hb] at hsome
      have hpair := Option.some.inj hsome
      rw [Prod.mk.injEq] at hpair
      obtain ⟨h1, h2⟩ := hpair
      subst h1
      subst h2
      exact ⟨by omega, by omega, by omega, by omega, hb⟩
    · rw [if_neg hb] at hsome
      exact absurd hsome (by simp)
  · rintro ⟨hx0, hx, hy0, hy, hb⟩
    refine ⟨x.toNat, by omega, y.toNat, by omega, ?_⟩
    have hxx : ((x.toNat : Nat) : Int) = x := Int.toNat_of_nonneg hx0
    have hyy : ((y.toNat : Nat) : Int) = y := Int.toNat_of_nonneg hy0
    rw [hxx, hyy, if_pos hb]

/-- Placing a stone on the empty front extension cell of an open four
produces a five-in-a-row through that cell. -/
lemma winsIfPlaced_front_of_openFour (b : Board) (p : Player) (r c : Int)
    (d : Int × Int) (hd : d ∈ directions) (h : openFour b p r c d) :
    winsIfPlaced b p (r - d.1, c - d.2) = true := by
  obtain ⟨hrun, hob, hemp, -, -⟩ := h
  have hcell : ∀ j : Nat, j < 4 →
      cellHas (boardSet b (r - d.1) (c - d.2) (some p))
        (r + (j : Int) * d.1) (c + (j : Int) * d.2) p = true := by
    intro j hj
    obtain ⟨hbnds, hbsome⟩ := (cellHas_iff b _ _ p).mp (hrun j hj)
    rw [cellHas_iff]
    refine ⟨hbnds, ?_⟩
    rw [boardSet]
    split
    · rfl
    · exact hbsome
  have hrl : 4 ≤ runLen (boardSet b (r - d.1) (c - d.2) (some p)) p
      d.1 d.2 4 (r - d.1) (c - d.2) := by
    apply runLen_ge _ p d.1 d.2 4 4 _ _ le_rfl
    intro i h1 h2
    have hc := hcell (i - 1) (by omega)
    have hcast : ((i - 1 : Nat) : Int) = (i : Int) - 1 := by omega
    rw [hcast] at hc
    have harg1 : r + ((i : Int) - 1) * d.1 = r - d.1 + (i : Int) * d.1 := by
      ring
    have harg2 : c + ((i : Int) - 1) * d.2 = c - d.2 + (i : Int) * d.2 := by
      ring
    rw [harg1, harg2] at hc
    exact hc
  simp only [winsIfPlaced, checkWinAtPosition]
  apply List.any_eq_true.mpr
  refine ⟨d, hd, ?_⟩
  apply decide_eq_true
  simp only [lineCount]
  omega

/-- C8 (amended).  On a board holding an open-ended four, the heuristic
selects a move as follows: if the four is its own, it plays a cell whose
occupation completes a five for itself (priority 1); if the four belongs to
the opponent AND the heuristic has no one-move win of its own, it plays a
cell at which the opponent would complete a five, blocking that win
(priority 2).  Without the no-own-win proviso the blocking clause fails
(see the counterexample). -/
theorem getBestMove_openFour (b : Board) (aiPlayer humanPlayer : Player)
    (rand : List (Int × Int) → Int × Int) (r c : Int) (d : Int × Int)
    (hd : d ∈ directions) :
    (openFour b aiPlayer r c d →
      ∃ m, getBestMove rand b aiPlayer humanPlayer = some m ∧
        winsIfPlaced b aiPlayer m = true) ∧
    (openFour b humanPlayer r c d →
      (∀ pos ∈ getEmptyPositions b, winsIfPlaced b aiPlayer pos = false) →
      ∃ m, getBestMove rand b aiPlayer humanPlayer = some m ∧
        winsIfPlaced b humanPlayer m = true) := by
  have front_mem : ∀ p : Player, openFour b p r c d →
      (r - d.1, c - d.2) ∈ getEmptyPositions b := by
    intro p hof
    obtain ⟨-, hob, hemp, -, -⟩ := hof
    rw [mem_getEmptyPositions]
    simp only [onBoard, decide_eq_true_eq] at hob
    exact ⟨hob.1, hob.2.1, hob.2.2.1, hob.2.2.2, hemp⟩
  constructor
  · intro hof
    have hwin := winsIfPlaced_front_of_openFour b aiPlayer r c d hd hof
    have hmem := front_mem aiPlayer hof
    have hfind : findWinningMove b aiPlayer (getEmptyPositions b) ≠ none := by
      rw [findWinningMove, Ne, List.find?_eq_none]
      push_neg
      exact ⟨_, hmem, by simp [hwin]⟩
    obtain ⟨m, hm⟩ := Option.ne_none_iff_exists'.mp hfind
    have hm' := hm
    rw [findWinningMove] at hm'
    refine ⟨m, ?_, List.find?_some hm'⟩
    have hlen : ¬((getEmptyPositions b).length = 0) := by
      intro h0
      rw [List.length_eq_zero] at h0
      rw [h0] at hmem
      simp at hmem
    simp only [getBestMove]
    rw [if_neg hlen, hm]
  · intro hof hnone
    have hwin := winsIfPlaced_front_of_openFour b humanPlayer r c d hd hof
    have hmem := front_mem humanPlayer hof
    have hfindai : findWinningMove b aiPlayer (getEmptyPositions b) = none := by
      rw [findWinningMove, List.find?_eq_none]
      intro x hx
      simp [hnone x hx]
    have hfind : findWinningMove b humanPlayer (getEmptyPositions b) ≠
        none := by
      rw [findWinningMove, Ne, List.find?_eq_none]
      push_neg
      exact ⟨_, hmem, by simp [hwin]⟩
    obtain ⟨m, hm⟩ := Option.ne_none_iff_exists'.mp hfind
    have hm' := hm
    rw [findWinningMove] at hm'
    refine ⟨m, ?_, List.find?_some hm'⟩
    have hlen : ¬((getEmptyPositions b).length = 0) := by
      intro h0
      rw [List.length_eq_zero] at h0
      rw [h0] at hmem
      simp at hmem
    simp only [getBestMove]
    rw [if_neg hlen, hfindai, hm]

set_option maxRecDepth 100000 in
/-- C8 counterexample: the board holds an open-ended four for black (the
opponent), with completing cells (9,4) and (9,9), yet the heuristic
playing white picks (0,4) — its own immediate win — which does not block
black: the claim as stated fails whenever the heuristic also has a win of
its own. -/
theorem getBestMove_ignores_block_cex :
    openFour aiCexBoard Player.black 9 5 (0, 1) ∧
    getBestMove (fun _ => (0, 0)) aiCexBoard Player.white Player.black =
      some (0, 4) ∧
    winsIfPlaced aiCexBoard Player.black (0, 4) = false ∧
    winsIfPlaced aiCexBoard Player.black (9, 4) = true ∧
    winsIfPlaced aiCexBoard Player.black (9, 9) = true := by
  refine ⟨by decide, by decide, by decide, by decide, by decide⟩

set_option maxRecDepth 100000 in
theorem getBestMove_openFour_witness :
    openFour aiOwnBoard Player.white 9 5 (0, 1) ∧
    (∃ m, getBestMove (fun _ => (0, 0)) aiOwnBoard Player.white Player.black =
        some m ∧ winsIfPlaced aiOwnBoard Player.white m = true) :=
  ⟨by decide,
    (getBestMove_openFour aiOwnBoard Player.white Player.black
      (fun _ => (0, 0)) 9 5 (0, 1) (by decide)).1 (by decide)⟩
